import Mathlib

/-!
Shallow embedding of the note-model and drill-engine core of the Fretude
guitar fretboard trainer, together with theorems settling the frozen claims
about it.

Conventions used throughout the embedding:
* JavaScript `%` on integers is truncated remainder; it is embedded as
  `Int.tmod`.  The source's recurring normalization pattern
  `let r = a % 12; if (r < 0) r += 12` is embedded as `jsNormMod12`.
* `Math.floor(x / 12)` on an integer-valued quotient is floor division,
  embedded as `Int.fdiv`.
* `Array.prototype.indexOf` is embedded as `jsIndexOf`, returning `-1 : ℤ`
  when the element is absent.
* JavaScript numbers are embedded as `ℚ` where division occurs (scheduler
  weights, stats), as `ℤ` for semitone/octave arithmetic, and as `ℕ` for
  counters and indices.
* Calls to `Math.random()` are embedded as explicit extra parameters: a
  uniform draw `Math.floor(Math.random() * n)` becomes `r % n` for a
  parameter `r : ℕ`, and the random comparator shuffles become function
  parameters that are assumed to permute their input.
-/

/-! ## Note tables (utils.ts) -/

def NOTES_SHARP : List String :=
  ["C", "C#", "D", "D#"] ++ ["E", "F", "F#", "G"] ++ ["G#", "A", "A#", "B"]

def NOTES_FLAT : List String :=
  ["C", "Db", "D", "Eb", "E", "F", "Gb", "G", "Ab", "A", "Bb", "B"]

def NATURAL_NOTES : List String := ["C", "D", "E", "F", "G", "A", "B"]

/-- Key signatures whose relative major prefers flats (source `PREFER_FLATS_MAJOR`). -/
def PREFER_FLATS_MAJOR : List String := ["F", "A#", "D#", "G#", "C#", "F#"]

/-- Offset of each mode from its relative major (source `MODE_OFFSETS` record). -/
def MODE_OFFSETS : List (String × ℤ) :=
  [("MAJOR", 0), ("DORIAN", 2), ("PHRYGIAN", 4), ("LYDIAN", 5),
   ("MIXOLYDIAN", 7), ("NATURAL_MINOR", 9), ("LOCRIAN", 11)]

/-- The mode names present in `MODE_OFFSETS` (`hasOwnProperty` domain). -/
def MODE_NAMES : List String :=
  ["MAJOR", "DORIAN", "PHRYGIAN", "LYDIAN", "MIXOLYDIAN", "NATURAL_MINOR", "LOCRIAN"]

/-- Record lookup `MODE_OFFSETS[keyScale]`. -/
def modeOffset (s : String) : Option ℤ :=
  (MODE_OFFSETS.find? (fun p => p.1 == s)).map (fun p => p.2)

/-! ## JavaScript-semantics helpers -/

/-- JavaScript `a % 12` followed by the source's `if (r < 0) r += 12` normalization. -/
def jsNormMod12 (a : ℤ) : ℤ :=
  let r := a.tmod 12
  if r < 0 then r + 12 else r

/-- JavaScript `Array.prototype.indexOf` on a list of strings: `-1` when absent. -/
def jsIndexOf (l : List String) (s : String) : ℤ :=
  match l with
  | [] => -1
  | a :: rest =>
    if a = s then 0
    else
      let r := jsIndexOf rest s
      if r = -1 then -1 else r + 1

/-- JavaScript `String.prototype.includes` for a single-character needle. -/
def hasChar (s : String) (c : Char) : Bool := s.data.contains c

/-- Character-list worker for `replaceFirst`. -/
def replaceFirstAux : List Char → Char → Char → List Char
  | [], _, _ => []
  | c :: cs, a, b => if c = a then b :: cs else c :: replaceFirstAux cs a b

/-- JavaScript `String.prototype.replace` with a single-character pattern:
replaces the first occurrence only. -/
def replaceFirst (s : String) (a b : Char) : String :=
  String.mk (replaceFirstAux s.data a b)

/-! ## Enharmonic resolver (utils.ts `getDisplayNoteName`) -/

inductive AccidentalStyle where
  | SHARP
  | FLAT
deriving DecidableEq

/-- Truthiness test of `keyRoot && keyScale && MODE_OFFSETS.hasOwnProperty(keyScale)`
(a JavaScript string is truthy iff it is non-empty). -/
def keyContextFound (keyRoot keyScale : Option String) : Bool :=
  match keyRoot, keyScale with
  | some r, some s => r != "" && s != "" && (modeOffset s).isSome
  | _, _ => false

/-- The `useFlat` flag computed by `getDisplayNoteName`: key context (when found
and its root resolves) decides via the relative-major root; otherwise the global
accidental preference decides. -/
def spellUseFlat (keyRoot keyScale : Option String)
    (accidentalPreference : AccidentalStyle) : Bool :=
  if keyContextFound keyRoot keyScale then
    let rootIndex := jsIndexOf NOTES_SHARP (keyRoot.getD "")
    if rootIndex ≠ -1 then
      let offset := (modeOffset (keyScale.getD "")).getD 0
      let relativeMajorIndex := jsNormMod12 (rootIndex - offset)
      PREFER_FLATS_MAJOR.contains (NOTES_SHARP.getD relativeMajorIndex.toNat "")
    else false
  else accidentalPreference == AccidentalStyle.FLAT

/-- Source `getDisplayNoteName`: spell a sharp-table pitch-class label with
Unicode accidentals, choosing the flat or sharp table per `spellUseFlat`. -/
def getDisplayNoteName (noteName : String) (keyRoot keyScale : Option String)
    (accidentalPreference : AccidentalStyle := AccidentalStyle.SHARP) : String :=
  if !(hasChar noteName '#') then noteName
  else
    let noteIndex := jsIndexOf NOTES_SHARP noteName
    if noteIndex = -1 then noteName
    else if spellUseFlat keyRoot keyScale accidentalPreference then
      replaceFirst (NOTES_FLAT.getD noteIndex.toNat "") 'b' '♭'
    else
      replaceFirst noteName '#' '♯'

/-! ## Pitch model (utils.ts `getNoteAtPosition`) -/

/-- Source `getNoteAtPosition`: pitch-class label at a tuning offset (semitones
relative to E2, possibly negative) and fret. -/
def getNoteAtPosition (stringOffset fretIndex : ℤ) : String :=
  let baseIndex : ℤ := 4
  let absoluteIndex := jsNormMod12 (baseIndex + stringOffset + fretIndex)
  NOTES_SHARP.getD absoluteIndex.toNat ""

/-! ## Scale table (utils.ts `getScaleNotes`) -/

def SCALE_INTERVALS : List (String × List ℤ) :=
  [("MAJOR", [0, 2, 4, 5, 7, 9, 11]),
   ("NATURAL_MINOR", [0, 2, 3, 5, 7, 8, 10]),
   ("DORIAN", [0, 2, 3, 5, 7, 9, 10]),
   ("PHRYGIAN", [0, 1, 3, 5, 7, 8, 10]),
   ("LYDIAN", [0, 2, 4, 6, 7, 9, 11]),
   ("MIXOLYDIAN", [0, 2, 4, 5, 7, 9, 10]),
   ("LOCRIAN", [0, 1, 3, 5, 6, 8, 10])]

/-- Source `getScaleNotes`: `[]` for an unknown root; unknown scale types fall
back to MAJOR (`SCALE_INTERVALS[type] || SCALE_INTERVALS.MAJOR`). -/
def getScaleNotes (root : String) (type : String) : List String :=
  let rootIndex := jsIndexOf NOTES_SHARP root
  if rootIndex = -1 then []
  else
    let intervals :=
      ((SCALE_INTERVALS.find? (fun p => p.1 == type)).map (fun p => p.2)).getD
        [0, 2, 4, 5, 7, 9, 11]
    intervals.map (fun interval =>
      NOTES_SHARP.getD ((rootIndex + interval).tmod 12).toNat "")

/-! ## Arithmetic lemmas for the JavaScript helpers -/

theorem tmod12_lower (a : ℤ) : -12 < a.tmod 12 := by
  cases a with
  | ofNat n =>
    have h : (0 : ℤ) ≤ (Int.ofNat n).tmod 12 := Int.tmod_nonneg _ (Int.ofNat_nonneg n)
    omega
  | negSucc n =>
    have h : (Int.negSucc n).tmod 12 = -(((n + 1) % 12 : ℕ) : ℤ) := rfl
    have h2 : (n + 1) % 12 < 12 := Nat.mod_lt _ (by omega)
    omega

theorem jsNormMod12_eq (a : ℤ) : jsNormMod12 a = a % 12 := by
  have h1 : a.tmod 12 + 12 * a.tdiv 12 = a := Int.tmod_add_tdiv a 12
  have h2 : a.tmod 12 < 12 := Int.tmod_lt_of_pos a (by omega)
  have h3 : -12 < a.tmod 12 := tmod12_lower a
  unfold jsNormMod12
  dsimp only
  split <;> omega

theorem jsIndexOf_lower (l : List String) (s : String) : -1 ≤ jsIndexOf l s := by
  induction l with
  | nil => simp [jsIndexOf]
  | cons a rest ih =>
    simp only [jsIndexOf]
    by_cases ha : a = s
    · simp [ha]
    · simp only [if_neg ha]
      by_cases hr : jsIndexOf rest s = -1
      · simp [hr]
      · simp only [if_neg hr]
        omega

theorem jsIndexOf_eq_neg_one_iff (l : List String) (s : String) :
    jsIndexOf l s = -1 ↔ s ∉ l := by
  induction l with
  | nil => simp [jsIndexOf]
  | cons a rest ih =>
    have hlow := jsIndexOf_lower rest s
    by_cases ha : a = s
    · simp [jsIndexOf, ha]
    · have hmem : s ∈ a :: rest ↔ s ∈ rest := by
        simp only [List.mem_cons]
        constructor
        · intro h
          rcases h with h | h
          · exact absurd h.symm ha
          · exact h
        · intro h
          exact Or.inr h
      rw [hmem, ← ih]
      simp only [jsIndexOf, if_neg ha]
      constructor
      · intro h
        by_cases hr : jsIndexOf rest s = -1
        · exact hr
        · simp only [if_neg hr] at h
          omega
      · intro h
        simp [h]

/-! ## Staff notation (utils.ts staff section) -/

structure StaffNoteData where
  noteName : String
  octave : ℤ
deriving DecidableEq

/-- Source `fretboardToStaffNote`: converts a fretboard position (tuning offset
in semitones from E2 plus fret) to a note name and octave.  The octave advances
at chromatic index 0 (C), handled by the `normalizedIndex < 4` branch. -/
def fretboardToStaffNote (stringOffset fretIndex : ℤ) : StaffNoteData :=
  let totalSemitones := stringOffset + fretIndex
  let E_INDEX : ℤ := 4
  let noteIndex := (E_INDEX + totalSemitones).tmod 12
  let normalizedIndex := if noteIndex < 0 then noteIndex + 12 else noteIndex
  let baseOctave : ℤ := 2
  let semitonesFromE2 := totalSemitones
  let octave :=
    if normalizedIndex < E_INDEX then
      baseOctave + (semitonesFromE2 + (12 - E_INDEX)).fdiv 12
    else
      baseOctave + semitonesFromE2.fdiv 12
  { noteName := NOTES_SHARP.getD normalizedIndex.toNat "", octave := octave }

inductive FocusMode where
  | ALL
  | NATURALS
  | KEY
deriving DecidableEq

/-- The `switch (focusMode)` block computing `availableNotes`/`allowedNoteNames`;
the source repeats this block verbatim in `generateRandomStaffNote` and
`generateRandomStaffNoteInRange`.  A JavaScript string is truthy iff non-empty,
hence the `!= ""` guards on the KEY branch. -/
def allowedNotesFor (focusMode : FocusMode) (keyRoot keyScale : Option String) :
    List String :=
  match focusMode with
  | FocusMode.NATURALS => NATURAL_NOTES
  | FocusMode.KEY =>
    match keyRoot, keyScale with
    | some r, some s => if r != "" && s != "" then getScaleNotes r s else NOTES_SHARP
    | _, _ => NOTES_SHARP
  | FocusMode.ALL => NOTES_SHARP

/-- Source `generateRandomStaffNote`.  The two `Math.floor(Math.random() * n)`
draws are passed in as `randNote` and `randOct` (taken modulo the relevant
size). -/
def generateRandomStaffNote (minOctave maxOctave : ℤ) (focusMode : FocusMode)
    (keyRoot keyScale : Option String) (randNote randOct : ℕ) : StaffNoteData :=
  let availableNotes := allowedNotesFor focusMode keyRoot keyScale
  let noteName := availableNotes.getD (randNote % availableNotes.length) ""
  let octaveSpan := (maxOctave - minOctave + 1).toNat
  let randomOctave : ℤ := minOctave + (randOct % octaveSpan : ℕ)
  let noteIndex :=
    jsIndexOf NOTES_SHARP (replaceFirst (replaceFirst noteName '♯' '#') '♭' 'b')
  let E_INDEX : ℤ := 4
  let randomOctave1 :=
    if randomOctave = maxOctave ∧ E_INDEX < noteIndex then maxOctave - 1
    else randomOctave
  let randomOctave2 :=
    if randomOctave1 = minOctave ∧ noteIndex < E_INDEX then minOctave + 1
    else randomOctave1
  { noteName := noteName, octave := randomOctave2 }

/-- True for the characters accepted by the `[A-Ga-g]` regex class. -/
def isNoteLetterChar (c : Char) : Bool :=
  ('A' ≤ c && c ≤ 'G') || ('a' ≤ c && c ≤ 'g')

/-- True for the characters accepted by the `\d` regex class. -/
def isDigitChar (c : Char) : Bool := ('0' ≤ c) && (c ≤ '9')

/-- Source `parseNoteString`: matches `^([A-Ga-g][#b]?)(\d)$` and upper-cases
the whole first group (so a flat accidental letter `b` becomes `B`). -/
def parseNoteString (s : String) : Option StaffNoteData :=
  match s.data with
  | [c, d] =>
    if isNoteLetterChar c && isDigitChar d then
      some { noteName := String.mk [c.toUpper], octave := (d.toNat - '0'.toNat : ℕ) }
    else none
  | [c, a, d] =>
    if isNoteLetterChar c && (a == '#' || a == 'b') && isDigitChar d then
      some { noteName := String.mk [c.toUpper, a.toUpper],
             octave := (d.toNat - '0'.toNat : ℕ) }
    else none
  | _ => none

/-- Source `noteToSemitones`: absolute pitch (semitones from C0); an unknown
label (found in neither table) yields `0`. -/
def noteToSemitones (note : StaffNoteData) : ℤ :=
  let noteIndex :=
    jsIndexOf NOTES_SHARP (replaceFirst (replaceFirst note.noteName '♯' '#') '♭' 'b')
  if noteIndex = -1 then
    let flatIndex := jsIndexOf NOTES_FLAT (replaceFirst note.noteName '♭' 'b')
    if flatIndex = -1 then 0
    else note.octave * 12 + flatIndex
  else note.octave * 12 + noteIndex

/-- The inclusive octave loop `for (octave = low; octave <= high; octave++)`. -/
def octaveRange (lo hi : ℤ) : List ℤ :=
  (List.range (hi - lo + 1).toNat).map (fun i => lo + (i : ℤ))

/-- The candidate-building double loop of `generateRandomStaffNoteInRange`:
all `{noteName, octave}` pairs from the allowed names whose absolute pitch lies
within the inclusive semitone bounds of the parsed range. -/
def validNotesInRange (lowParsed highParsed : StaffNoteData)
    (allowedNoteNames : List String) : List StaffNoteData :=
  let lowSemitones := noteToSemitones lowParsed
  let highSemitones := noteToSemitones highParsed
  (octaveRange lowParsed.octave highParsed.octave).flatMap (fun octave =>
    allowedNoteNames.filterMap (fun noteName =>
      let note : StaffNoteData := { noteName := noteName, octave := octave }
      let semitones := noteToSemitones note
      if lowSemitones ≤ semitones ∧ semitones ≤ highSemitones then some note
      else none))

/-- Source `generateRandomStaffNoteInRange`.  `randIdx` stands for the uniform
draw over the surviving candidate list; `randNote`/`randOct` feed the
`generateRandomStaffNote` fallback taken when either bound fails to parse. -/
def generateRandomStaffNoteInRange (lowNote highNote : String)
    (focusMode : FocusMode) (keyRoot keyScale : Option String)
    (randIdx randNote randOct : ℕ) : StaffNoteData :=
  match parseNoteString lowNote, parseNoteString highNote with
  | some lowParsed, some highParsed =>
    let allowedNoteNames := allowedNotesFor focusMode keyRoot keyScale
    let validNotes := validNotesInRange lowParsed highParsed allowedNoteNames
    if validNotes.isEmpty then { noteName := "C", octave := 4 }
    else validNotes.getD (randIdx % validNotes.length) { noteName := "C", octave := 4 }
  | _, _ => generateRandomStaffNote 2 5 focusMode keyRoot keyScale randNote randOct

/-! ## Game state (App.tsx): stats store, scheduler, option builder -/

structure Note where
  stringIndex : ℕ
  fretIndex : ℕ
  noteName : String
deriving DecidableEq

structure NoteStat where
  correct : ℕ
  incorrect : ℕ
  timeouts : ℕ
  totalTimeMs : ℚ
  lastSeen : ℚ
deriving DecidableEq

/-- The `noteStats` record object, as an association list keyed by stat key. -/
def NoteStatsMap : Type := List (String × NoteStat)

/-- Property access `noteStats[key]` (absent keys give `undefined`). -/
def lookupStat (m : NoteStatsMap) (k : String) : Option NoteStat :=
  (List.find? (fun p => p.1 == k) m).map (fun p => p.2)

/-- Object spread `{...noteStats, [key]: stat}`: replace the binding of `key`
if present, otherwise add it; all other bindings are kept. -/
def setStat (m : NoteStatsMap) (k : String) (v : NoteStat) : NoteStatsMap :=
  match m with
  | [] => [(k, v)]
  | (k', v') :: rest =>
    if k' = k then (k, v) :: rest else (k', v') :: setStat rest k v

/-- Stat key derivation: `tuningId + "-" + stringIndex + "-" + fretIndex`. -/
def statKey (tuningId : String) (stringIndex fretIndex : ℕ) : String :=
  tuningId ++ "-" ++ Nat.repr stringIndex ++ "-" ++ Nat.repr fretIndex

/-- Source `recordNoteResult` (the stats-store update; the session log push is
UI-side and omitted).  `now` stands for `Date.now()`. -/
def recordNoteResult (noteStats : NoteStatsMap) (tuningId : String) (note : Note)
    (isCorrect : Bool) (timeTaken : ℚ) (isTimeout : Bool) (now : ℚ) : NoteStatsMap :=
  let key := statKey tuningId note.stringIndex note.fretIndex
  let currentStat := (lookupStat noteStats key).getD
    { correct := 0, incorrect := 0, timeouts := 0, totalTimeMs := 0, lastSeen := 0 }
  let updatedStat : NoteStat :=
    { correct := currentStat.correct + (if isCorrect then 1 else 0),
      incorrect := currentStat.incorrect + (if !isCorrect && !isTimeout then 1 else 0),
      timeouts := currentStat.timeouts + (if isTimeout then 1 else 0),
      totalTimeMs := currentStat.totalTimeMs + timeTaken,
      lastSeen := now }
  setStat noteStats key updatedStat

/-- The position-equality test used by the immediate-repeat guards
(`stringIndex` and `fretIndex` agree). -/
def sameNotePos (a b : Note) : Bool :=
  a.stringIndex == b.stringIndex && a.fretIndex == b.fretIndex

/-- The weight assigned to one candidate by the `validNotes.map` body of
`getSmartNextNote`.  `previous` is `targetNoteRef.current`, `poolLength` is
`validNotes.length`, `now` is `Date.now()`. -/
def noteWeight (noteStats : NoteStatsMap) (tuningId : String)
    (previous : Option Note) (poolLength : ℕ) (now : ℚ) (note : Note) : ℚ :=
  let key := statKey tuningId note.stringIndex note.fretIndex
  let stat := lookupStat noteStats key
  if (match previous with
      | some p => sameNotePos note p
      | none => false) && decide (1 < poolLength) then 0
  else
    match stat with
    | none => 100
    | some st =>
      let totalAttempts := st.correct + st.incorrect + st.timeouts
      if totalAttempts = 0 then 100
      else
        let accuracy := (st.correct : ℚ) / (totalAttempts : ℚ)
        let avgTime := st.totalTimeMs / (totalAttempts : ℚ)
        let timeSinceLastSeen := now - st.lastSeen
        let accuracyWeight := (1 - accuracy) * 50
        let speedWeight := min avgTime 5000 / 5000 * 30
        let recencyWeight := min timeSinceLastSeen 300000 / 300000 * 40
        let baseWeight : ℚ := 5
        baseWeight + accuracyWeight + speedWeight + recencyWeight

/-- The uniform draw `validNotes[Math.floor(Math.random() * validNotes.length)]`,
with the sampled floor value passed in as `idx` (reduced modulo the length). -/
def drawIndex (pool : List Note) (idx : ℕ) : Note :=
  pool.getD (idx % pool.length) { stringIndex := 0, fretIndex := 1, noteName := "F" }

/-- The `do { next = pick(attempt) } while (same position as previous && attempts
< max)` retry loop of `generateNewNote`: `fuel` is the number of retries still
allowed after the current draw, so `fuel = 9` models the 10-draw loop and
`fuel = 2` the 3-draw loop. -/
def retryDraw (prev : Option Note) (pick : ℕ → Note) : ℕ → ℕ → Note
  | attempt, 0 => pick attempt
  | attempt, fuel + 1 =>
    let note := pick attempt
    match prev with
    | none => note
    | some p =>
      if sameNotePos note p then retryDraw prev pick (attempt + 1) fuel else note

/-- Source `getSmartNextNote`, draw layer: when adaptive learning is off or the
stats store is empty it is the uniform draw; otherwise it is the
weighted-random selection over `noteWeight`, abstracted here as the
`weightedPick` oracle parameter (its cumulative-weight walk is not needed by
any claim). -/
def getSmartNextNoteDraw (adaptive : Bool) (noteStats : NoteStatsMap)
    (pool : List Note) (idx : ℕ) (weightedPick : Note) : Note :=
  if !adaptive || noteStats.isEmpty then drawIndex pool idx else weightedPick

/-- The next-position selection of `generateNewNote` (lines 1312-1337): the
adaptive branch retries `getSmartNextNote` up to 3 draws, the non-adaptive
branch retries the inline uniform draw up to 10 draws.  `idxs` is the stream
of sampled uniform indices, `weightedPicks` the stream of weighted-selection
outcomes. -/
def generateNextNote (adaptive : Bool) (noteStats : NoteStatsMap)
    (pool : List Note) (prev : Option Note) (idxs : ℕ → ℕ)
    (weightedPicks : ℕ → Note) : Note :=
  if adaptive then
    retryDraw prev
      (fun i => getSmartNextNoteDraw adaptive noteStats pool (idxs i) (weightedPicks i))
      0 2
  else
    retryDraw prev (fun i => drawIndex pool (idxs i)) 0 9

/-- The EASY-difficulty option builder of `generateNewNote` (lines 1344-1358):
distractor pool filtered of the target, clamped distractor count (1 under the
reduced-choices powerup, else 4), random-comparator shuffles passed in as
function parameters. -/
def easyAnswerOptions (allowedDistractors : List String) (targetNoteName : String)
    (fewerChoices : Bool) (shuffle1 shuffle2 : List String → List String) :
    List String :=
  let possibleDistractors := allowedDistractors.filter (fun n => n != targetNoteName)
  let numDistractors := if fewerChoices then 1 else 4
  let safeNumDistractors := min numDistractors possibleDistractors.length
  let distractors := (shuffle1 possibleDistractors).take safeNumDistractors
  shuffle2 (distractors ++ [targetNoteName])

/-! ## Spec-side auxiliary notions named by the claims -/

/-- The relative-major root that the key-context spelling policy consults:
`NOTES_SHARP[(rootIndex - modeOffset) mod 12]` (claim C4). -/
def relativeMajorRoot (root mode : String) : String :=
  NOTES_SHARP.getD
    (jsNormMod12 (jsIndexOf NOTES_SHARP root - (modeOffset mode).getD 0)).toNat ""

/-- Mapping Unicode accidentals back to their ASCII table form (claim C9). -/
def asciiNoteName (s : String) : String :=
  replaceFirst (replaceFirst s '♯' '#') '♭' 'b'

/-! ## C3: pitch model -/

/-- C3: for every integer tuning offset `o` (negative offsets included) and
fret `f`, `getNoteAtPosition o f` is `NOTES_SHARP[(4 + o + f) mod 12]` with a
non-negative normalized modulus, the index lies in `0..11`, and the function
is periodic in the fret with period 12. -/
theorem getNoteAtPosition_pitch_class (o f : ℤ) :
    getNoteAtPosition o f = NOTES_SHARP.getD ((4 + o + f) % 12).toNat ""
    ∧ 0 ≤ (4 + o + f) % 12
    ∧ (4 + o + f) % 12 < 12
    ∧ getNoteAtPosition o f = getNoteAtPosition o (f + 12) := by
  have h1 : getNoteAtPosition o f = NOTES_SHARP.getD ((4 + o + f) % 12).toNat "" := by
    unfold getNoteAtPosition
    dsimp only
    rw [jsNormMod12_eq]
  have h2 : getNoteAtPosition o (f + 12)
      = NOTES_SHARP.getD ((4 + o + (f + 12)) % 12).toNat "" := by
    unfold getNoteAtPosition
    dsimp only
    rw [jsNormMod12_eq]
  refine ⟨h1, by omega, by omega, ?_⟩
  rw [h1, h2]
  have h3 : (4 + o + f) % 12 = (4 + o + (f + 12)) % 12 := by omega
  rw [h3]

/-! ## C2: octave-boundary arithmetic -/

/-- C2: for total semitone count `s = o + f` from E2, the octave computed by
`fretboardToStaffNote` is `2 + ⌊s/12⌋` when the normalized pitch-class index
`(4 + s) mod 12` is at least 4, and `2 + ⌊s/12⌋ + 1` when that index is
strictly below 4 — the octave increments at chromatic index 0 (C), not at the
reference pitch. -/
theorem fretboardToStaffNote_octave (o f : ℤ) :
    (fretboardToStaffNote o f).octave =
      (if 4 ≤ (4 + (o + f)) % 12 then 2 + (o + f) / 12 else 2 + (o + f) / 12 + 1) := by
  unfold fretboardToStaffNote
  dsimp only
  have ha := Int.fdiv_eq_ediv (o + f + (12 - 4)) (show (0:ℤ) ≤ 12 by omega)
  have hb := Int.fdiv_eq_ediv (o + f) (show (0:ℤ) ≤ 12 by omega)
  have hm : (4 + (o + f)).tmod 12 + 12 * (4 + (o + f)).tdiv 12 = 4 + (o + f) :=
    Int.tmod_add_tdiv _ 12
  have hm2 : (4 + (o + f)).tmod 12 < 12 := Int.tmod_lt_of_pos _ (by omega)
  have hm3 : -12 < (4 + (o + f)).tmod 12 := tmod12_lower _
  rw [ha, hb]
  split
  · split
    · omega
    · omega
  · split
    · omega
    · omega

/-! ## C10: unknown pitch-class labels -/

/-- C10 counterexample: an unknown label is not surfaced to the caller as an
error — `getScaleNotes` returns the ordinary value `[]` and `noteToSemitones`
returns `0`, indistinguishable from the legitimate result for C0. -/
theorem unknown_label_counterexample :
    ("H" ∉ NOTES_SHARP ∧ "H" ∉ NOTES_FLAT)
    ∧ noteToSemitones { noteName := "H", octave := 0 } = 0
    ∧ noteToSemitones { noteName := "H", octave := 0 }
        = noteToSemitones { noteName := "C", octave := 0 }
    ∧ getScaleNotes "H" "MAJOR" = [] := by decide

/-- C10 amended: unknown pitch-class labels degrade gracefully rather than
signalling an error: `getScaleNotes` yields `[]` for a root outside the sharp
table, and `noteToSemitones` yields `0` for a label found in neither table. -/
theorem unknown_label_degrades (root type : String) (note : StaffNoteData) :
    (root ∉ NOTES_SHARP → getScaleNotes root type = [])
    ∧ (replaceFirst (replaceFirst note.noteName '♯' '#') '♭' 'b' ∉ NOTES_SHARP →
       replaceFirst note.noteName '♭' 'b' ∉ NOTES_FLAT →
       noteToSemitones note = 0) := by
  constructor
  · intro h
    have hidx : jsIndexOf NOTES_SHARP root = -1 :=
      (jsIndexOf_eq_neg_one_iff _ _).mpr h
    simp [getScaleNotes, hidx]
  · intro h1 h2
    have hidx1 : jsIndexOf NOTES_SHARP
        (replaceFirst (replaceFirst note.noteName '♯' '#') '♭' 'b') = -1 :=
      (jsIndexOf_eq_neg_one_iff _ _).mpr h1
    have hidx2 : jsIndexOf NOTES_FLAT (replaceFirst note.noteName '♭' 'b') = -1 :=
      (jsIndexOf_eq_neg_one_iff _ _).mpr h2
    simp [noteToSemitones, hidx1, hidx2]

/-- Witness for `unknown_label_degrades` at the concrete unknown label "H". -/
theorem unknown_label_degrades_witness :
    ("H" ∉ NOTES_SHARP) ∧ getScaleNotes "H" "MAJOR" = [] :=
  ⟨by decide,
   (unknown_label_degrades "H" "MAJOR" { noteName := "H", octave := 0 }).1 (by decide)⟩

/-! ## C1: adaptive scheduler weighting -/

/-- C1: the weight of a candidate is 0 for an immediate repeat when the pool
has more than one member; 100 when no stat record exists or the record has
zero total attempts; otherwise `5 + (1-accuracy)*50 +
(min(avgTimeMs,5000)/5000)*30 + (min(sinceLastSeenMs,300000)/300000)*40`;
and the record `correct=9, incorrect=1, timeouts=0, totalTimeMs=10000`
last seen 600000 ms ago weighs exactly 56. -/
theorem noteWeight_cases (stats : NoteStatsMap) (tid : String) (prev : Option Note)
    (poolLen : ℕ) (now : ℚ) (note p : Note) (st : NoteStat) :
    (prev = some p → sameNotePos note p = true → 1 < poolLen →
      noteWeight stats tid prev poolLen now note = 0)
    ∧ ((prev = none ∨ (prev = some p ∧ sameNotePos note p = false) ∨ poolLen ≤ 1) →
        lookupStat stats (statKey tid note.stringIndex note.fretIndex) = none →
        noteWeight stats tid prev poolLen now note = 100)
    ∧ ((prev = none ∨ (prev = some p ∧ sameNotePos note p = false) ∨ poolLen ≤ 1) →
        lookupStat stats (statKey tid note.stringIndex note.fretIndex) = some st →
        st.correct + st.incorrect + st.timeouts = 0 →
        noteWeight stats tid prev poolLen now note = 100)
    ∧ ((prev = none ∨ (prev = some p ∧ sameNotePos note p = false) ∨ poolLen ≤ 1) →
        lookupStat stats (statKey tid note.stringIndex note.fretIndex) = some st →
        0 < st.correct + st.incorrect + st.timeouts →
        noteWeight stats tid prev poolLen now note =
          5 + (1 - (st.correct : ℚ) / ((st.correct + st.incorrect + st.timeouts : ℕ) : ℚ)) * 50
            + min (st.totalTimeMs / ((st.correct + st.incorrect + st.timeouts : ℕ) : ℚ)) 5000 / 5000 * 30
            + min (now - st.lastSeen) 300000 / 300000 * 40)
    ∧ noteWeight
        [(statKey "T" 0 0,
          { correct := 9, incorrect := 1, timeouts := 0, totalTimeMs := 10000, lastSeen := 0 })]
        "T" none 5 600000 { stringIndex := 0, fretIndex := 0, noteName := "E" } = 56 := by
  refine ⟨?_, ?_, ?_, ?_, ?_⟩
  · intro h1 h2 h3
    subst h1
    simp [noteWeight, h2, h3]
  · intro h hl
    rcases h with h | ⟨h1, h2⟩ | h
    · subst h
      simp [noteWeight, hl]
    · subst h1
      simp [noteWeight, hl, h2]
    · have hp : ¬(1 < poolLen) := by omega
      simp [noteWeight, hl, hp]
  · intro h hl hz
    rcases h with h | ⟨h1, h2⟩ | h
    · subst h
      simp [noteWeight, hl, hz]
    · subst h1
      simp [noteWeight, hl, h2, hz]
    · have hp : ¬(1 < poolLen) := by omega
      simp [noteWeight, hl, hp, hz]
  · intro h hl hz
    have hnz : ¬(st.correct + st.incorrect + st.timeouts = 0) := by omega
    rcases h with h | ⟨h1, h2⟩ | h
    · subst h
      simp [noteWeight, hl, hnz]
    · subst h1
      simp [noteWeight, hl, h2, hnz]
    · have hp : ¬(1 < poolLen) := by omega
      simp [noteWeight, hl, hp, hnz]
  · have hl : lookupStat
        [(statKey "T" 0 0,
          { correct := 9, incorrect := 1, timeouts := 0, totalTimeMs := 10000, lastSeen := 0 })]
        (statKey "T" 0 0) = some
          { correct := 9, incorrect := 1, timeouts := 0, totalTimeMs := 10000, lastSeen := 0 } := rfl
    simp only [noteWeight]
    rw [hl]
    norm_num [min_def]

/-- Witness for `noteWeight_cases`: immediate repeat in a 2-member pool weighs 0. -/
theorem noteWeight_cases_witness :
    ((some { stringIndex := 0, fretIndex := 0, noteName := "E" } : Option Note)
        = some { stringIndex := 0, fretIndex := 0, noteName := "E" })
    ∧ sameNotePos { stringIndex := 0, fretIndex := 0, noteName := "E" }
        { stringIndex := 0, fretIndex := 0, noteName := "E" } = true
    ∧ 1 < 2
    ∧ noteWeight [] "T" (some { stringIndex := 0, fretIndex := 0, noteName := "E" }) 2 0
        { stringIndex := 0, fretIndex := 0, noteName := "E" } = 0 :=
  ⟨rfl, by decide, by decide,
   (noteWeight_cases [] "T" (some { stringIndex := 0, fretIndex := 0, noteName := "E" }) 2 0
      { stringIndex := 0, fretIndex := 0, noteName := "E" }
      { stringIndex := 0, fretIndex := 0, noteName := "E" }
      { correct := 0, incorrect := 0, timeouts := 0, totalTimeMs := 0, lastSeen := 0 }).1
    rfl (by decide) (by decide)⟩

/-! ## C5: recordNoteResult contract -/

/-- The all-zero record used when a key is seen for the first time. -/
def zeroNoteStat : NoteStat :=
  { correct := 0, incorrect := 0, timeouts := 0, totalTimeMs := 0, lastSeen := 0 }

theorem lookupStat_cons (k0 : String) (v0 : NoteStat) (tl : NoteStatsMap) (k : String) :
    lookupStat ((k0, v0) :: tl) k = if k0 = k then some v0 else lookupStat tl k := by
  by_cases h : k0 = k
  · have hb : ((k0, v0).1 == k) = true := by simpa using h
    simp [lookupStat, List.find?_cons_of_pos _ hb, h]
  · have hb : ¬((fun p => p.1 == k) (k0, v0)) = true := by simpa using h
    simp [lookupStat, List.find?_cons_of_neg _ hb, h]

theorem lookupStat_setStat_self (m : NoteStatsMap) (k : String) (v : NoteStat) :
    lookupStat (setStat m k v) k = some v := by
  induction m with
  | nil => simp [setStat, lookupStat_cons]
  | cons hd tl ih =>
    obtain ⟨k0, v0⟩ := hd
    by_cases h : k0 = k
    · simp [setStat, h, lookupStat_cons]
    · simp [setStat, h, lookupStat_cons, ih]

theorem lookupStat_setStat_other (m : NoteStatsMap) (k k' : String) (v : NoteStat)
    (h : k' ≠ k) : lookupStat (setStat m k v) k' = lookupStat m k' := by
  have hne : k ≠ k' := Ne.symm h
  induction m with
  | nil => simp [setStat, lookupStat_cons, hne, lookupStat]
  | cons hd tl ih =>
    obtain ⟨k0, v0⟩ := hd
    by_cases h0 : k0 = k
    · subst h0
      simp [setStat, lookupStat_cons, hne]
    · simp [setStat, h0, lookupStat_cons, ih]

/-- The record the update starts from: the stored record, or the all-zero
record when the key is absent (lazy creation). -/
def currentStatOf (stats : NoteStatsMap) (key : String) : NoteStat :=
  (lookupStat stats key).getD zeroNoteStat

/-- C5: `recordNoteResult` updates exactly the record at
`tuningId-stringIndex-fretIndex`: exactly one counter is incremented (timeout
taking precedence over incorrect), `timeTaken` is added to `totalTimeMs`
unconditionally, `lastSeen` becomes `now`, an absent record is created from
all-zero counters, every other key is untouched, and no record is deleted. -/
theorem recordNoteResult_contract (stats : NoteStatsMap) (tid : String) (note : Note)
    (isCorrect : Bool) (timeTaken : ℚ) (isTimeout : Bool) (now : ℚ)
    (hnb : ¬(isCorrect = true ∧ isTimeout = true)) :
    ∃ updated : NoteStat,
      lookupStat (recordNoteResult stats tid note isCorrect timeTaken isTimeout now)
          (statKey tid note.stringIndex note.fretIndex) = some updated
      ∧ updated.correct + updated.incorrect + updated.timeouts
          = (currentStatOf stats (statKey tid note.stringIndex note.fretIndex)).correct
            + (currentStatOf stats (statKey tid note.stringIndex note.fretIndex)).incorrect
            + (currentStatOf stats (statKey tid note.stringIndex note.fretIndex)).timeouts + 1
      ∧ updated.totalTimeMs
          = (currentStatOf stats (statKey tid note.stringIndex note.fretIndex)).totalTimeMs
            + timeTaken
      ∧ updated.lastSeen = now
      ∧ (isTimeout = true →
          updated.timeouts
            = (currentStatOf stats (statKey tid note.stringIndex note.fretIndex)).timeouts + 1
          ∧ updated.correct
            = (currentStatOf stats (statKey tid note.stringIndex note.fretIndex)).correct
          ∧ updated.incorrect
            = (currentStatOf stats (statKey tid note.stringIndex note.fretIndex)).incorrect)
      ∧ (isTimeout = false → isCorrect = true →
          updated.correct
            = (currentStatOf stats (statKey tid note.stringIndex note.fretIndex)).correct + 1
          ∧ updated.incorrect
            = (currentStatOf stats (statKey tid note.stringIndex note.fretIndex)).incorrect
          ∧ updated.timeouts
            = (currentStatOf stats (statKey tid note.stringIndex note.fretIndex)).timeouts)
      ∧ (isTimeout = false → isCorrect = false →
          updated.incorrect
            = (currentStatOf stats (statKey tid note.stringIndex note.fretIndex)).incorrect + 1
          ∧ updated.correct
            = (currentStatOf stats (statKey tid note.stringIndex note.fretIndex)).correct
          ∧ updated.timeouts
            = (currentStatOf stats (statKey tid note.stringIndex note.fretIndex)).timeouts)
      ∧ (∀ k, k ≠ statKey tid note.stringIndex note.fretIndex →
          lookupStat (recordNoteResult stats tid note isCorrect timeTaken isTimeout now) k
            = lookupStat stats k)
      ∧ (∀ k v, lookupStat stats k = some v →
          ∃ v', lookupStat (recordNoteResult stats tid note isCorrect timeTaken isTimeout now) k
            = some v') := by
  unfold recordNoteResult
  dsimp only
  refine ⟨_, lookupStat_setStat_self _ _ _, ?hsum, ?htime, ?hlast, ?hto, ?hcorr, ?hinc, ?hother, ?hkeep⟩
  · cases hc : isCorrect <;> cases ht : isTimeout
    · simp [currentStatOf, zeroNoteStat]
      omega
    · simp [currentStatOf, zeroNoteStat]
      omega
    · simp [currentStatOf, zeroNoteStat]
      omega
    · exact absurd ⟨hc, ht⟩ hnb
  · simp [currentStatOf, zeroNoteStat]
  · simp
  · intro ht
    subst ht
    cases hc : isCorrect
    · simp [currentStatOf, zeroNoteStat]
    · exact absurd ⟨hc, rfl⟩ hnb
  · intro ht hc
    subst ht; subst hc
    simp [currentStatOf, zeroNoteStat]
  · intro ht hc
    subst ht; subst hc
    simp [currentStatOf, zeroNoteStat]
  · intro k hk
    exact lookupStat_setStat_other _ _ _ _ hk
  · intro k v hv
    by_cases hk : k = statKey tid note.stringIndex note.fretIndex
    · subst hk
      exact ⟨_, lookupStat_setStat_self _ _ _⟩
    · exact ⟨v, (lookupStat_setStat_other _ _ _ _ hk).trans hv⟩

/-- Witness for `recordNoteResult_contract`: a correct answer on an empty store. -/
theorem recordNoteResult_contract_witness :
    ¬((true : Bool) = true ∧ (false : Bool) = true)
    ∧ ∃ updated : NoteStat,
        lookupStat (recordNoteResult [] "T" { stringIndex := 0, fretIndex := 0, noteName := "E" }
            true 100 false 5) (statKey "T" 0 0) = some updated :=
  ⟨by decide,
   match recordNoteResult_contract [] "T" { stringIndex := 0, fretIndex := 0, noteName := "E" }
       true 100 false 5 (by decide) with
   | ⟨u, hu, _⟩ => ⟨u, hu⟩⟩

/-! ## C8: non-adaptive selection retry bound -/

/-- C8 counterexample: with adaptive learning enabled but an empty stats store,
the selection loop accepts the repeat after only 3 uniform draws.  With an
index stream whose first three draws hit the previous position and whose
fourth would not, the code returns the repeat while the claimed 10-draw retry
process returns the other pool member. -/
theorem generateNextNote_counterexample :
    generateNextNote true []
        [{ stringIndex := 0, fretIndex := 0, noteName := "E" },
         { stringIndex := 0, fretIndex := 1, noteName := "F" }]
        (some { stringIndex := 0, fretIndex := 0, noteName := "E" })
        (fun i => if i < 3 then 0 else 1)
        (fun _ => { stringIndex := 0, fretIndex := 0, noteName := "E" })
      = { stringIndex := 0, fretIndex := 0, noteName := "E" }
    ∧ retryDraw (some { stringIndex := 0, fretIndex := 0, noteName := "E" })
        (fun i => drawIndex
          [{ stringIndex := 0, fretIndex := 0, noteName := "E" },
           { stringIndex := 0, fretIndex := 1, noteName := "F" }]
          ((fun i => if i < 3 then 0 else 1) i)) 0 9
      = { stringIndex := 0, fretIndex := 1, noteName := "F" }
    ∧ ({ stringIndex := 0, fretIndex := 0, noteName := "E" } : Note)
        ≠ { stringIndex := 0, fretIndex := 1, noteName := "F" } := by
  refine ⟨rfl, rfl, by decide⟩

/-- C8 amended: when adaptive learning is disabled the next position is a
uniform-random draw retried up to 10 draws to avoid repeating the previous
position, the repeat being accepted after that; when adaptive learning is
enabled but the stats store is empty, the draw is likewise uniform-random but
is retried only up to 3 draws. -/
theorem generateNextNote_amended (adaptive : Bool) (stats : NoteStatsMap)
    (pool : List Note) (prev : Option Note) (idxs : ℕ → ℕ) (wp : ℕ → Note) :
    (adaptive = false →
      generateNextNote adaptive stats pool prev idxs wp
        = retryDraw prev (fun i => drawIndex pool (idxs i)) 0 9)
    ∧ (adaptive = true → stats = [] →
      generateNextNote adaptive stats pool prev idxs wp
        = retryDraw prev (fun i => drawIndex pool (idxs i)) 0 2) := by
  constructor
  · intro h
    subst h
    rfl
  · intro h hs
    subst h
    subst hs
    unfold generateNextNote
    have hp : (fun i => getSmartNextNoteDraw true ([] : NoteStatsMap) pool (idxs i) (wp i))
        = fun i => drawIndex pool (idxs i) := funext (fun i => rfl)
    rw [if_pos rfl, hp]

/-- Witness for `generateNextNote_amended` on a concrete one-element pool. -/
theorem generateNextNote_amended_witness :
    ((false : Bool) = false)
    ∧ generateNextNote false [] [{ stringIndex := 0, fretIndex := 0, noteName := "E" }]
        none (fun _ => 0) (fun _ => { stringIndex := 0, fretIndex := 0, noteName := "E" })
      = retryDraw none
          (fun i => drawIndex [{ stringIndex := 0, fretIndex := 0, noteName := "E" }]
            ((fun _ => 0) i)) 0 9 :=
  ⟨rfl,
   (generateNextNote_amended false [] [{ stringIndex := 0, fretIndex := 0, noteName := "E" }]
      none (fun _ => 0) (fun _ => { stringIndex := 0, fretIndex := 0, noteName := "E" })).1 rfl⟩

/-! ## C7: distractor/option builder -/

theorem length_filter_ne_lt (l : List String) (t : String) (h : t ∈ l) :
    (l.filter (fun n => n != t)).length < l.length := by
  induction l with
  | nil => cases h
  | cons a rest ih =>
    by_cases ha : a = t
    · subst ha
      have hle := List.length_filter_le (fun n => n != a) rest
      simp only [List.filter_cons, bne_self_eq_false, Bool.false_eq_true, if_false,
        List.length_cons]
      omega
    · have hb : (a != t) = true := by simp [ha]
      have ht : t ∈ rest := by
        rcases List.mem_cons.mp h with h1 | h1
        · exact absurd h1.symm ha
        · exact h1
      have hlen := ih ht
      simp only [List.filter_cons, hb, if_true, List.length_cons]
      omega

/-- C7: the option list built by the EASY branch contains the target exactly
once, never exceeds the allowed pool size (for a target drawn from the pool),
has length `min k |distractor pool| + 1` where `k` is 1 under the
reduced-choices powerup and 4 otherwise, and collapses to `[target]` when the
distractor pool is empty. -/
theorem easyAnswerOptions_spec (allowed : List String) (target : String)
    (fewer : Bool) (shuffle1 shuffle2 : List String → List String)
    (h1 : ∀ l, (shuffle1 l).Perm l) (h2 : ∀ l, (shuffle2 l).Perm l) :
    (easyAnswerOptions allowed target fewer shuffle1 shuffle2).count target = 1
    ∧ (target ∈ allowed →
        (easyAnswerOptions allowed target fewer shuffle1 shuffle2).length ≤ allowed.length)
    ∧ (easyAnswerOptions allowed target fewer shuffle1 shuffle2).length
        = min (if fewer then 1 else 4) (allowed.filter (fun n => n != target)).length + 1
    ∧ ((allowed.filter (fun n => n != target)) = [] →
        easyAnswerOptions allowed target fewer shuffle1 shuffle2 = [target]) := by
  have heq : easyAnswerOptions allowed target fewer shuffle1 shuffle2
      = shuffle2 ((shuffle1 (allowed.filter (fun n => n != target))).take
          (min (if fewer then 1 else 4) (allowed.filter (fun n => n != target)).length)
          ++ [target]) := rfl
  have htake_mem : ∀ x ∈ (shuffle1 (allowed.filter (fun n => n != target))).take
      (min (if fewer then 1 else 4) (allowed.filter (fun n => n != target)).length),
      x ∈ allowed.filter (fun n => n != target) := by
    intro x hx
    exact (h1 _).mem_iff.mp (List.mem_of_mem_take hx)
  have hcount : (easyAnswerOptions allowed target fewer shuffle1 shuffle2).count target = 1 := by
    rw [heq, (h2 _).count_eq, List.count_append]
    have hz : ((shuffle1 (allowed.filter (fun n => n != target))).take
        (min (if fewer then 1 else 4) (allowed.filter (fun n => n != target)).length)).count
          target = 0 := by
      rw [List.count_eq_zero]
      intro hmem
      have hf := htake_mem target hmem
      rw [List.mem_filter] at hf
      simp at hf
    rw [hz]
    simp
  have hlen : (easyAnswerOptions allowed target fewer shuffle1 shuffle2).length
      = min (if fewer then 1 else 4) (allowed.filter (fun n => n != target)).length + 1 := by
    rw [heq, (h2 _).length_eq, List.length_append, List.length_take, (h1 _).length_eq]
    simp [Nat.min_assoc]
  refine ⟨hcount, ?_, hlen, ?_⟩
  · intro hmem
    have hstrict := length_filter_ne_lt allowed target hmem
    have hmin : min (if fewer then 1 else 4) (allowed.filter (fun n => n != target)).length
        ≤ (allowed.filter (fun n => n != target)).length := Nat.min_le_right _ _
    omega
  · intro hempty
    rw [heq, hempty]
    have : (shuffle1 ([] : List String)).Perm [] := h1 []
    rw [List.perm_nil.mp this]
    simp only [List.take_nil, List.nil_append]
    exact (h2 [target]).eq_singleton

/-- Witness for `easyAnswerOptions_spec` with identity shuffles. -/
theorem easyAnswerOptions_spec_witness :
    (∀ l : List String, (id l).Perm l)
    ∧ (easyAnswerOptions NOTES_SHARP "E" false id id).count "E" = 1 :=
  ⟨fun l => List.Perm.refl l,
   (easyAnswerOptions_spec NOTES_SHARP "E" false id id
      (fun l => List.Perm.refl l) (fun l => List.Perm.refl l)).1⟩

/-! ## C6: range-constrained random staff note -/

theorem mem_validNotesInRange (lp hp : StaffNoteData) (allowed : List String)
    (x : StaffNoteData) (hx : x ∈ validNotesInRange lp hp allowed) :
    noteToSemitones lp ≤ noteToSemitones x ∧ noteToSemitones x ≤ noteToSemitones hp := by
  unfold validNotesInRange at hx
  rw [List.mem_flatMap] at hx
  obtain ⟨oct, _, hx⟩ := hx
  rw [List.mem_filterMap] at hx
  obtain ⟨name, _, hx⟩ := hx
  dsimp only at hx
  split at hx
  · rename_i hcond
    cases hx
    exact hcond
  · cases hx

/-- C6: whenever both range bounds parse, every note returned by
`generateRandomStaffNoteInRange` has absolute pitch within the parsed bounds
when the enumerated candidate set is non-empty; when that set is empty the
fixed default `{C, 4}` is returned; and with `low = high = E4` under focus ALL
the result is always exactly `{E, 4}`. -/
theorem generateRandomStaffNoteInRange_spec (lowNote highNote : String)
    (focusMode : FocusMode) (keyRoot keyScale : Option String)
    (lowParsed highParsed : StaffNoteData)
    (hlow : parseNoteString lowNote = some lowParsed)
    (hhigh : parseNoteString highNote = some highParsed) :
    (∀ randIdx randNote randOct : ℕ,
      (validNotesInRange lowParsed highParsed
          (allowedNotesFor focusMode keyRoot keyScale) ≠ [] →
        noteToSemitones lowParsed
            ≤ noteToSemitones (generateRandomStaffNoteInRange lowNote highNote focusMode
                keyRoot keyScale randIdx randNote randOct)
        ∧ noteToSemitones (generateRandomStaffNoteInRange lowNote highNote focusMode
                keyRoot keyScale randIdx randNote randOct)
            ≤ noteToSemitones highParsed)
      ∧ (validNotesInRange lowParsed highParsed
          (allowedNotesFor focusMode keyRoot keyScale) = [] →
        generateRandomStaffNoteInRange lowNote highNote focusMode keyRoot keyScale
            randIdx randNote randOct = { noteName := "C", octave := 4 }))
    ∧ (∀ randIdx randNote randOct : ℕ,
        generateRandomStaffNoteInRange "E4" "E4" FocusMode.ALL none none
            randIdx randNote randOct = { noteName := "E", octave := 4 }) := by
  constructor
  · intro randIdx randNote randOct
    have hres : ∀ other : StaffNoteData,
        generateRandomStaffNoteInRange lowNote highNote focusMode keyRoot keyScale
            randIdx randNote randOct
          = (if (validNotesInRange lowParsed highParsed
                (allowedNotesFor focusMode keyRoot keyScale)).isEmpty
             then ({ noteName := "C", octave := 4 } : StaffNoteData)
             else (validNotesInRange lowParsed highParsed
                (allowedNotesFor focusMode keyRoot keyScale)).getD
                  (randIdx % (validNotesInRange lowParsed highParsed
                    (allowedNotesFor focusMode keyRoot keyScale)).length)
                  { noteName := "C", octave := 4 }) := by
      intro other
      unfold generateRandomStaffNoteInRange
      rw [hlow, hhigh]
    constructor
    · intro hne
      have hempty : (validNotesInRange lowParsed highParsed
          (allowedNotesFor focusMode keyRoot keyScale)).isEmpty = false := by
        cases hl : (validNotesInRange lowParsed highParsed
            (allowedNotesFor focusMode keyRoot keyScale)).isEmpty
        · rfl
        · exact absurd (List.isEmpty_iff.mp hl) hne
      have hlenpos : 0 < (validNotesInRange lowParsed highParsed
          (allowedNotesFor focusMode keyRoot keyScale)).length :=
        List.length_pos.mpr hne
      have hlt : randIdx % (validNotesInRange lowParsed highParsed
          (allowedNotesFor focusMode keyRoot keyScale)).length
          < (validNotesInRange lowParsed highParsed
              (allowedNotesFor focusMode keyRoot keyScale)).length :=
        Nat.mod_lt _ hlenpos
      have hmem : (validNotesInRange lowParsed highParsed
          (allowedNotesFor focusMode keyRoot keyScale)).getD
            (randIdx % (validNotesInRange lowParsed highParsed
              (allowedNotesFor focusMode keyRoot keyScale)).length)
            { noteName := "C", octave := 4 }
          ∈ validNotesInRange lowParsed highParsed
              (allowedNotesFor focusMode keyRoot keyScale) := by
        rw [List.getD_eq_getElem _ _ hlt]
        exact List.getElem_mem hlt
      rw [hres { noteName := "C", octave := 4 }, hempty]
      simp only [Bool.false_eq_true, if_false]
      exact mem_validNotesInRange _ _ _ _ hmem
    · intro he
      rw [hres { noteName := "C", octave := 4 }, he]
      simp
  · intro randIdx randNote randOct
    have hv : validNotesInRange { noteName := "E", octave := 4 }
        { noteName := "E", octave := 4 } (allowedNotesFor FocusMode.ALL none none)
        = [{ noteName := "E", octave := 4 }] := by decide
    have hp : parseNoteString "E4" = some { noteName := "E", octave := 4 } := by decide
    have hres2 : generateRandomStaffNoteInRange "E4" "E4" FocusMode.ALL none none
        randIdx randNote randOct
        = (if (validNotesInRange { noteName := "E", octave := 4 }
              { noteName := "E", octave := 4 } (allowedNotesFor FocusMode.ALL none none)).isEmpty
           then ({ noteName := "C", octave := 4 } : StaffNoteData)
           else (validNotesInRange { noteName := "E", octave := 4 }
              { noteName := "E", octave := 4 } (allowedNotesFor FocusMode.ALL none none)).getD
                (randIdx % (validNotesInRange { noteName := "E", octave := 4 }
                  { noteName := "E", octave := 4 }
                  (allowedNotesFor FocusMode.ALL none none)).length)
                { noteName := "C", octave := 4 }) := by
      unfold generateRandomStaffNoteInRange
      rw [hp]
    rw [hres2, hv]
    simp [Nat.mod_one]

/-- Witness for `generateRandomStaffNoteInRange_spec` at the E4-E4 range. -/
theorem generateRandomStaffNoteInRange_spec_witness :
    parseNoteString "E4" = some { noteName := "E", octave := 4 }
    ∧ ∀ randIdx randNote randOct : ℕ,
        generateRandomStaffNoteInRange "E4" "E4" FocusMode.ALL none none
            randIdx randNote randOct = { noteName := "E", octave := 4 } :=
  ⟨by decide,
   (generateRandomStaffNoteInRange_spec "E4" "E4" FocusMode.ALL none none
      { noteName := "E", octave := 4 } { noteName := "E", octave := 4 }
      (by decide) (by decide)).2⟩

/-! ## C4: enharmonic spelling policy under a key context -/

theorem jsIndexOf_sharp_getD (i : ℕ) (hi : i < 12) :
    jsIndexOf NOTES_SHARP (NOTES_SHARP.getD i "") = (i : ℤ) := by
  have h : ∀ j < 12, jsIndexOf NOTES_SHARP (NOTES_SHARP.getD j "") = (j : ℤ) := by decide
  exact h i hi

theorem spellUseFlat_context (r : String) (hr : r ∈ NOTES_SHARP) (m : String)
    (hm : m ∈ MODE_NAMES) (pref : AccidentalStyle) :
    spellUseFlat (some r) (some m) pref
      = PREFER_FLATS_MAJOR.contains (relativeMajorRoot r m) := by
  have hctx : keyContextFound (some r) (some m) = true := by
    have h : ∀ r0 ∈ NOTES_SHARP, ∀ m0 ∈ MODE_NAMES,
        keyContextFound (some r0) (some m0) = true := by decide
    exact h r hr m hm
  have hroot : jsIndexOf NOTES_SHARP r ≠ -1 := by
    have h : ∀ r0 ∈ NOTES_SHARP, jsIndexOf NOTES_SHARP r0 ≠ -1 := by decide
    exact h r hr
  unfold spellUseFlat
  rw [hctx]
  simp only [if_true, Option.getD_some]
  rw [if_pos hroot]
  rfl

/-- C4: for a sharp-table label under a key context with a known mode and a
valid root, `getDisplayNoteName` spells with the flat table iff the context's
relative-major root is one of the six flat-preferring keys, ignoring the
global accidental preference entirely; with no key context the global
preference decides; and under key context F MAJOR pitch class 10 is spelled
"B♭", not "A♯". -/
theorem getDisplayNoteName_key_policy (i : ℕ) (hi : i < 12)
    (hacc : hasChar (NOTES_SHARP.getD i "") '#' = true)
    (r : String) (hr : r ∈ NOTES_SHARP) (m : String) (hm : m ∈ MODE_NAMES)
    (pref pref2 : AccidentalStyle) :
    (getDisplayNoteName (NOTES_SHARP.getD i "") (some r) (some m) pref
      = if PREFER_FLATS_MAJOR.contains (relativeMajorRoot r m)
        then replaceFirst (NOTES_FLAT.getD i "") 'b' '♭'
        else replaceFirst (NOTES_SHARP.getD i "") '#' '♯')
    ∧ getDisplayNoteName (NOTES_SHARP.getD i "") (some r) (some m) pref
      = getDisplayNoteName (NOTES_SHARP.getD i "") (some r) (some m) pref2
    ∧ getDisplayNoteName (NOTES_SHARP.getD i "") none none pref
      = (if pref = AccidentalStyle.FLAT
         then replaceFirst (NOTES_FLAT.getD i "") 'b' '♭'
         else replaceFirst (NOTES_SHARP.getD i "") '#' '♯')
    ∧ getDisplayNoteName "A#" (some "F") (some "MAJOR") AccidentalStyle.SHARP = "B♭" := by
  have hidx : jsIndexOf NOTES_SHARP (NOTES_SHARP.getD i "") = (i : ℤ) :=
    jsIndexOf_sharp_getD i hi
  have hne : ¬ jsIndexOf NOTES_SHARP (NOTES_SHARP.getD i "") = -1 := by
    rw [hidx]
    omega
  have htoNat : ((i : ℤ)).toNat = i := Int.toNat_natCast i
  have hmain : ∀ pr : AccidentalStyle,
      getDisplayNoteName (NOTES_SHARP.getD i "") (some r) (some m) pr
        = if PREFER_FLATS_MAJOR.contains (relativeMajorRoot r m)
          then replaceFirst (NOTES_FLAT.getD i "") 'b' '♭'
          else replaceFirst (NOTES_SHARP.getD i "") '#' '♯' := by
    intro pr
    unfold getDisplayNoteName
    rw [hacc]
    simp only [Bool.not_true, Bool.false_eq_true, if_false]
    rw [if_neg hne, hidx, htoNat, spellUseFlat_context r hr m hm pr]
  have hnone : getDisplayNoteName (NOTES_SHARP.getD i "") none none pref
      = (if pref = AccidentalStyle.FLAT
         then replaceFirst (NOTES_FLAT.getD i "") 'b' '♭'
         else replaceFirst (NOTES_SHARP.getD i "") '#' '♯') := by
    unfold getDisplayNoteName
    rw [hacc]
    simp only [Bool.not_true, Bool.false_eq_true, if_false]
    rw [if_neg hne, hidx, htoNat]
    have hsp : spellUseFlat none none pref = (pref == AccidentalStyle.FLAT) := rfl
    rw [hsp]
    cases pref
    · simp
    · simp
  exact ⟨hmain pref, (hmain pref).trans (hmain pref2).symm, hnone, by decide⟩

/-- Witness for `getDisplayNoteName_key_policy` at pitch class 10 in F major. -/
theorem getDisplayNoteName_key_policy_witness :
    (10 < 12 ∧ hasChar (NOTES_SHARP.getD 10 "") '#' = true
      ∧ "F" ∈ NOTES_SHARP ∧ "MAJOR" ∈ MODE_NAMES)
    ∧ getDisplayNoteName (NOTES_SHARP.getD 10 "") (some "F") (some "MAJOR")
        AccidentalStyle.SHARP
      = (if PREFER_FLATS_MAJOR.contains (relativeMajorRoot "F" "MAJOR")
         then replaceFirst (NOTES_FLAT.getD 10 "") 'b' '♭'
         else replaceFirst (NOTES_SHARP.getD 10 "") '#' '♯') :=
  ⟨⟨by decide, by decide, by decide, by decide⟩,
   (getDisplayNoteName_key_policy 10 (by decide) (by decide) "F" (by decide)
      "MAJOR" (by decide) AccidentalStyle.SHARP AccidentalStyle.SHARP).1⟩

/-! ## C9: enharmonic consistency of spelling -/

/-- C9: for every pitch class `i` in `0..11` and every branch the resolver can
take (any key context whatsoever and either global preference), the label
returned by `getDisplayNoteName` for `NOTES_SHARP[i]` denotes pitch class `i`:
after mapping the Unicode accidentals back to ASCII it is found at index `i`
of the sharp table or of the index-aligned flat table. -/
theorem getDisplayNoteName_enharmonic (i : ℕ) (hi : i < 12)
    (keyRoot keyScale : Option String) (pref : AccidentalStyle) :
    asciiNoteName (getDisplayNoteName (NOTES_SHARP.getD i "") keyRoot keyScale pref)
        = NOTES_SHARP.getD i ""
    ∨ asciiNoteName (getDisplayNoteName (NOTES_SHARP.getD i "") keyRoot keyScale pref)
        = NOTES_FLAT.getD i "" := by
  interval_cases i <;>
    cases hb : spellUseFlat keyRoot keyScale pref <;>
      simp only [getDisplayNoteName, hb] <;> decide

/-- Witness for `getDisplayNoteName_enharmonic` at pitch class 10 under the
global FLAT preference. -/
theorem getDisplayNoteName_enharmonic_witness :
    10 < 12
    ∧ (asciiNoteName (getDisplayNoteName (NOTES_SHARP.getD 10 "") none none
          AccidentalStyle.FLAT) = NOTES_SHARP.getD 10 ""
       ∨ asciiNoteName (getDisplayNoteName (NOTES_SHARP.getD 10 "") none none
          AccidentalStyle.FLAT) = NOTES_FLAT.getD 10 "") :=
  ⟨by decide, getDisplayNoteName_enharmonic 10 (by decide) none none AccidentalStyle.FLAT⟩
